import Mathlib

/-!
Verification of the routex redirect-generator's validation engine,
page generator and template processor, shallowly embedded from the
TypeScript sources (`src/engine/validator.ts`, `src/engine/generator.ts`,
`src/engine/template.ts`, `src/engine/utils.ts`).

Modelling conventions:
* A JS object used as a redirect map (`RedirectMap = Record<string, string>`)
  is a `List (String × String)` in insertion order with pairwise distinct
  keys; `Object.keys` enumerates the keys in that order (path keys start
  with `/`, so the integer-key reordering of JS objects never applies).
  Property access `rules[k]` is `List.lookup`.
* The file system is a deterministic set of existing paths,
  `List String`; `fs.access(p)` succeeds iff `p` is a member.  All
  existence probes are read-only, so the `Promise.all` joins of the
  parallel validator are modelled as ordered pure evaluation.
* `path.join` is modelled for the segment shapes the engine produces
  (no `.`/`..` segments, no embedded redundant slashes): empty segments
  are skipped, and non-empty segments are joined with `/`.
* Thrown `Error(message)` values are modelled as a structured value
  carrying the error category and the list of offending entries; the
  exact message text is recovered by `errMessage`.
-/

namespace Routex

deriving instance DecidableEq for Except

/-- JS string truthiness: only the empty string is falsy. -/
def truthy (s : String) : Bool := !(s == "")

/-- `s.startsWith(pre)` (via the character lists, so that concrete
instances evaluate in the kernel). -/
def jsStartsWith (s pre : String) : Bool := pre.data.isPrefixOf s.data

/-- `this.rules[k]`: property access on a redirect map. -/
def jsGet (rules : List (String × String)) (k : String) : Option String :=
  List.lookup k rules

/-- `Object.keys(this.rules)` in insertion order. -/
def keysOf (rules : List (String × String)) : List String :=
  rules.map Prod.fst

/-- `Object.values(this.rules)` in insertion order. -/
def valuesOf (rules : List (String × String)) : List String :=
  rules.map Prod.snd

/-- Truthiness of `this.rules[k]`: `k` is a key and its value is nonempty. -/
def truthyGet (rules : List (String × String)) (k : String) : Bool :=
  match jsGet rules k with
  | some v => truthy v
  | none => false

/-- The six failure categories of the validation engine
(`ValidationError.kind` in the specification's taxonomy). -/
inductive ErrKind where
  | SelfReference
  | CircularRedirect
  | InvalidSourcePath
  | InvalidDestinationPath
  | FileConflict
  | DeadLink
deriving DecidableEq, Repr

/-- A thrown validation error: its category plus the offending entries
(the strings interpolated into the thrown message). -/
structure VErr where
  kind : ErrKind
  items : List String
deriving DecidableEq, Repr

/-- The message text of the thrown `Error`, mirroring the template
literals in `validator.ts`. -/
def errMessage (e : VErr) : String :=
  match e.kind with
  | .SelfReference =>
      "Self-referencing redirects detected: " ++ String.intercalate ", " e.items
  | .CircularRedirect =>
      "Circular redirect detected involving: " ++ e.items.headD ""
  | .InvalidSourcePath =>
      "Source \"" ++ e.items.headD "" ++ "\" must start with \"/\""
  | .InvalidDestinationPath =>
      "Destination \"" ++ e.items.headD "" ++ "\" must start with \"/\" or be a full URL"
  | .FileConflict =>
      "Redirect sources conflict with existing pages:\n"
        ++ String.intercalate "\n" (e.items.map (fun c => "  - " ++ c))
        ++ "\n\nTo override existing pages, set 'overrideExisting: true' in options."
  | .DeadLink =>
      "Dead destination links detected:\n"
        ++ String.intercalate "\n" (e.items.map (fun l => "  - " ++ l))
        ++ "\n\nTo ignore dead links, set 'ignoreDeadLinks: true' in options."

/-- `RedirectOptions` after `normalizeConfig` (defaults from
`DEFAULT_OPTIONS` in `utils.ts`).  `redirectDelay` is in whole seconds. -/
structure RedirectOptions where
  enable : Bool := true
  addCanonical : Bool := false
  addNoIndexMeta : Bool := false
  redirectDelay : Nat := 0
  template : String := ""
  overrideExisting : Bool := false
  ignoreDeadLinks : Bool := false
deriving Repr

/-- The defaults of `DEFAULT_OPTIONS` in `utils.ts`. -/
def defaultOptions : RedirectOptions := {}

/-- `path.join a b` for the segment shapes the engine produces:
empty segments are skipped, non-empty segments joined with `/`. -/
def joinPath (a b : String) : String :=
  if b == "" then a else if a == "" then b else a ++ "/" ++ b

/-- `path.relative(cwd, p)`, modelled for the case that `p` lies under
`cwd` (strip the `cwd/` prefix), which is the only shape the engine
produces; otherwise the path is returned unchanged. -/
def pathRelative (cwd p : String) : String :=
  if jsStartsWith p (cwd ++ "/") then p.drop (cwd.length + 1) else p

/-- `fs.access(p)` resolving: `p` exists on the modelled disk. -/
def fsExists (fs : List String) (p : String) : Bool := fs.contains p

/-- `this.vitepressConfig!.vitepress?.srcDir || process.cwd()`. -/
def effSrcDir (srcDir : Option String) (cwd : String) : String :=
  match srcDir with
  | some s => if truthy s then s else cwd
  | none => cwd

/-! ### The five checks of `RedirectValidator` (validator.ts) -/

/-- `validateSelfReferences`: collect every source whose destination
equals it by exact string comparison; throw once listing all of them. -/
def validateSelfReferences (rules : List (String × String)) : Except VErr Unit :=
  let selfRefs := (keysOf rules).filter (fun source => jsGet rules source == some source)
  if selfRefs.isEmpty then .ok () else .error ⟨.SelfReference, selfRefs⟩

/-- The recursive `detectCircular` closure: gray set `visiting`, black set
`visited`.  `fuel` bounds the recursion depth (the JS call stack); the
top-level call supplies `rules.length + 1`, which is never exhausted
because every recursive step adds a distinct key to `visiting`. -/
def detectCircular (rules : List (String × String)) :
    Nat → List String → List String → String → Bool × List String
  | 0, visited, _, _ => (true, visited)
  | fuel + 1, visited, visiting, source =>
    if source ∈ visiting then (true, visited)
    else if source ∈ visited then (false, visited)
    else
      match jsGet rules source with
      | some dest =>
        if truthy dest && truthyGet rules dest then
          match detectCircular rules fuel visited (source :: visiting) dest with
          | (true, v) => (true, v)
          | (false, v) => (false, source :: v)
        else (false, source :: visited)
      | none => (false, source :: visited)

/-- The `for` loop of `validateCircularRedirects`: scan the keys in
order, threading the shared black set; return the first source at which
a cycle is detected. -/
def circularScan (rules : List (String × String)) :
    List String → List String → Option String
  | [], _ => none
  | source :: rest, visited =>
    match detectCircular rules (rules.length + 1) visited [] source with
    | (true, _) => some source
    | (false, v) => circularScan rules rest v

/-- `validateCircularRedirects`: throw at the first source where the
depth-first traversal revisits a gray node. -/
def validateCircularRedirects (rules : List (String × String)) : Except VErr Unit :=
  match circularScan rules (keysOf rules) [] with
  | some source => .error ⟨.CircularRedirect, [source]⟩
  | none => .ok ()

/-- `validatePaths`: every source must start with `/`; every destination
must start with `/` or `http`.  Each loop throws at its first offender. -/
def validatePaths (rules : List (String × String)) : Except VErr Unit :=
  match (keysOf rules).find? (fun source => !(jsStartsWith source "/")) with
  | some source => .error ⟨.InvalidSourcePath, [source]⟩
  | none =>
    match (valuesOf rules).find?
        (fun destination => !(jsStartsWith destination "/") && !(jsStartsWith destination "http")) with
    | some destination => .error ⟨.InvalidDestinationPath, [destination]⟩
    | none => .ok ()

/-- `validateDelay` only logs a warning (never throws); this returns the
warning messages it would emit. -/
def validateDelay (options : RedirectOptions) : List String :=
  if 5 < options.redirectDelay then
    ["redirectDelay of " ++ toString options.redirectDelay
      ++ "s may negatively impact user experience."]
  else []

/-- The three candidate content files probed for a source path
(`srcDir/source.md`, `srcDir/source/index.md`, `srcDir/source.html`,
after stripping the source's leading character with `slice(1)`). -/
def possibleSourceFiles (srcDir source : String) : List String :=
  [ joinPath srcDir (source.drop 1 ++ ".md"),
    joinPath (joinPath srcDir (source.drop 1)) "index.md",
    joinPath srcDir (source.drop 1 ++ ".html") ]

/-- One conflict entry string of `validateFileConflicts`. -/
def conflictEntry (cwd source filePath : String) : String :=
  source ++ " (conflicts with existing file: " ++ pathRelative cwd filePath ++ ")"

/-- `validateFileConflicts` (parallel version, validator.ts): flatMap all
`(source, candidate)` pairs, probe each candidate, and throw once listing
every existing candidate.  Skipped entirely under `overrideExisting`. -/
def validateFileConflicts (rules : List (String × String)) (options : RedirectOptions)
    (srcDir : Option String) (cwd : String) (fs : List String) : Except VErr Unit :=
  if options.overrideExisting then .ok ()
  else
    let dir := effSrcDir srcDir cwd
    let fileChecks := (keysOf rules).flatMap
      (fun source => (possibleSourceFiles dir source).map (fun filePath => (source, filePath)))
    let results := fileChecks.map (fun sf => (sf.1, sf.2, fsExists fs sf.2))
    let conflicts := (results.filter (fun r => r.2.2)).map
      (fun r => conflictEntry cwd r.1 r.2.1)
    if conflicts.isEmpty then .ok () else .error ⟨.FileConflict, conflicts⟩

/-- The candidate content files probed for an internal destination:
`slice(1)` the destination, then `cleanDest.md`, `cleanDest/index.md`,
`cleanDest.html`, plus `index.md` when the destination is exactly `/`.
Note: the code does NOT strip query strings or hash fragments. -/
def possibleDestFiles (srcDir dest : String) : List String :=
  [ joinPath srcDir (dest.drop 1 ++ ".md"),
    joinPath (joinPath srcDir (dest.drop 1)) "index.md",
    joinPath srcDir (dest.drop 1 ++ ".html") ]
  ++ (if dest == "/" then [joinPath srcDir "index.md"] else [])

/-- `validateDeadLinks` (parallel version, validator.ts): for every
non-`http` destination, probe its candidates; a destination is dead when
no candidate exists; throw once listing every dead destination.
Skipped entirely under `ignoreDeadLinks`. -/
def validateDeadLinks (rules : List (String × String)) (options : RedirectOptions)
    (srcDir : Option String) (cwd : String) (fs : List String) : Except VErr Unit :=
  if options.ignoreDeadLinks then .ok ()
  else
    let dir := effSrcDir srcDir cwd
    let internalDestinations := (valuesOf rules).filter (fun dest => !(jsStartsWith dest "http"))
    let results := internalDestinations.map
      (fun dest => (dest, (possibleDestFiles dir dest).any (fsExists fs)))
    let deadLinks := (results.filter (fun r => !r.2)).map Prod.fst
    if deadLinks.isEmpty then .ok () else .error ⟨.DeadLink, deadLinks⟩

/-- `RedirectValidator.validate`: the fixed check pipeline.  The
file-system checks run only when a vitepress config is present
(`cfgPresent`); `validateDelay` only logs and cannot fail. -/
def validate (rules : List (String × String)) (options : RedirectOptions)
    (cfgPresent : Bool) (srcDir : Option String) (cwd : String) (fs : List String) :
    Except VErr Unit :=
  match validateSelfReferences rules with
  | .error e => .error e
  | .ok _ =>
    match validateCircularRedirects rules with
    | .error e => .error e
    | .ok _ =>
      match validatePaths rules with
      | .error e => .error e
      | .ok _ =>
        if cfgPresent then
          match validateFileConflicts rules options srcDir cwd fs with
          | .error e => .error e
          | .ok _ => validateDeadLinks rules options srcDir cwd fs
        else .ok ()

/-! ### The earlier sequential validator (same pipeline; its
`validateFileConflicts` / `validateDeadLinks` loop over the probes with
`await` in sequence instead of joining a `Promise.all`). -/

/-- Inner loop of the sequential `validateFileConflicts`: for each
source, push one conflict entry per existing candidate file (no break). -/
def fileConflictEntriesSeq (dir cwd : String) (fs : List String) :
    List String → List String
  | [] => []
  | source :: rest =>
    ((possibleSourceFiles dir source).filter (fsExists fs)).map (conflictEntry cwd source)
      ++ fileConflictEntriesSeq dir cwd fs rest

/-- Sequential `validateFileConflicts` (generator-era validator). -/
def validateFileConflictsSeq (rules : List (String × String)) (options : RedirectOptions)
    (srcDir : Option String) (cwd : String) (fs : List String) : Except VErr Unit :=
  if options.overrideExisting then .ok ()
  else
    let dir := effSrcDir srcDir cwd
    let conflicts := fileConflictEntriesSeq dir cwd fs (keysOf rules)
    if conflicts.isEmpty then .ok () else .error ⟨.FileConflict, conflicts⟩

/-- Loop of the sequential `validateDeadLinks`: skip `http` destinations,
probe candidates with break-on-first-hit, collect destinations with no
existing candidate. -/
def deadLinksSeq (dir : String) (fs : List String) : List String → List String
  | [] => []
  | dest :: rest =>
    if jsStartsWith dest "http" then deadLinksSeq dir fs rest
    else if (possibleDestFiles dir dest).any (fsExists fs) then deadLinksSeq dir fs rest
    else dest :: deadLinksSeq dir fs rest

/-- Sequential `validateDeadLinks` (generator-era validator). -/
def validateDeadLinksSeq (rules : List (String × String)) (options : RedirectOptions)
    (srcDir : Option String) (cwd : String) (fs : List String) : Except VErr Unit :=
  if options.ignoreDeadLinks then .ok ()
  else
    let dir := effSrcDir srcDir cwd
    let deadLinks := deadLinksSeq dir fs (valuesOf rules)
    if deadLinks.isEmpty then .ok () else .error ⟨.DeadLink, deadLinks⟩

/-- `validate` of the sequential validator: the in-memory checks are
textually identical in both versions; only the file-system checks differ. -/
def validateSeq (rules : List (String × String)) (options : RedirectOptions)
    (cfgPresent : Bool) (srcDir : Option String) (cwd : String) (fs : List String) :
    Except VErr Unit :=
  match validateSelfReferences rules with
  | .error e => .error e
  | .ok _ =>
    match validateCircularRedirects rules with
    | .error e => .error e
    | .ok _ =>
      match validatePaths rules with
      | .error e => .error e
      | .ok _ =>
        if cfgPresent then
          match validateFileConflictsSeq rules options srcDir cwd fs with
          | .error e => .error e
          | .ok _ => validateDeadLinksSeq rules options srcDir cwd fs
        else .ok ()

/-! ### State-passing view of the validator (for the frame claim).

`RedirectValidator` holds its constructor arguments in private fields;
the methods read `this.rules` / `this.options` and contain no assignment
to either.  The state-passing translation makes that explicit: every
step receives the validator state and hands it on, so a mutation in the
source would surface as a state update here. -/

/-- The fields of a `RedirectValidator` instance. -/
structure ValidatorCtx where
  rules : List (String × String)
  options : RedirectOptions
  cfgPresent : Bool
  srcDir : Option String

/-- `validate()` with the instance state threaded explicitly: each check
reads the fields of the state it receives and passes the state on. -/
def validateM (st : ValidatorCtx) (cwd : String) (fs : List String) :
    Except VErr Unit × ValidatorCtx :=
  match validateSelfReferences st.rules with
  | .error e => (.error e, st)
  | .ok _ =>
    match validateCircularRedirects st.rules with
    | .error e => (.error e, st)
    | .ok _ =>
      match validatePaths st.rules with
      | .error e => (.error e, st)
      | .ok _ =>
        if st.cfgPresent then
          match validateFileConflicts st.rules st.options st.srcDir cwd fs with
          | .error e => (.error e, st)
          | .ok _ => (validateDeadLinks st.rules st.options st.srcDir cwd fs, st)
        else (.ok (), st)

/-! ### Template processing (template.ts) -/

/-- ECMAScript `GetSubstitution` for a string replacement against a
regular expression with no capture groups (the four placeholder
patterns have none): `$$` yields `$`, `$&` the matched text, a dollar
followed by a backquote the part of the original subject before the
match, `$'` the part after it; any other `$` (including `$n` and
`$<…>`, which with zero captures stay literal) is copied verbatim. -/
def getSubstitution (matched before after : List Char) : List Char → List Char
  | [] => []
  | [c] => [c]
  | c :: d :: rest =>
    if c = '$' then
      if d = '$' then '$' :: getSubstitution matched before after rest
      else if d = '&' then matched ++ getSubstitution matched before after rest
      else if d = '\x60' then before ++ getSubstitution matched before after rest
      else if d = '\x27' then after ++ getSubstitution matched before after rest
      else c :: getSubstitution matched before after (d :: rest)
    else c :: getSubstitution matched before after (d :: rest)

/-- Does the replacement string contain one of the four `$`-escape
pairs that `GetSubstitution` treats specially? -/
def hasDollarEscape : List Char → Bool
  | [] => false
  | [_] => false
  | c :: d :: rest =>
    if c = '$' then
      if d = '$' ∨ d = '&' ∨ d = '\x60' ∨ d = '\x27' then true
      else hasDollarEscape (d :: rest)
    else hasDollarEscape (d :: rest)

/-- `String.prototype.replace(/pat/g, repl)` for a literal pattern and
a string replacement: scan left to right, expanding the replacement
through `GetSubstitution` at every non-overlapping occurrence.  `pre`
is the already-consumed prefix of the original subject (the dollar
backquote context); `fuel` bounds the scan, and the wrapper supplies
the subject's length, which suffices because every step consumes at
least one character. -/
def replaceAllGo (pat repl : List Char) : Nat → List Char → List Char → List Char
  | _, _, [] => []
  | 0, _, s => s
  | fuel + 1, pre, c :: rest =>
    if pat.isPrefixOf (c :: rest) then
      getSubstitution pat pre (List.drop (pat.length - 1) rest) repl
        ++ replaceAllGo pat repl fuel (pre ++ pat) (List.drop (pat.length - 1) rest)
    else c :: replaceAllGo pat repl fuel (pre ++ [c]) rest

/-- `s.replace(/pat/g, repl)` on strings. -/
def replaceAll (pat repl s : String) : String :=
  ⟨replaceAllGo pat.data repl.data s.data.length [] s.data⟩

/-- `Template.processTemplate`: four global literal substitutions, in
source order `{source}`, `{destination}`, `{redirectDelay}`, `{metaTags}`. -/
def processTemplate (template source destination metaTags : String) (delay : Nat) : String :=
  replaceAll "{metaTags}" metaTags
    (replaceAll "{redirectDelay}" (toString delay)
      (replaceAll "{destination}" destination
        (replaceAll "{source}" source template)))

/-! ### Page generation (generator.ts, utils.ts) -/

/-- `sanitizePath` (utils.ts): strip leading and trailing `/` runs,
`inputPath.replace(/^\/+/, '').replace(/\/+$/, '')`. -/
def sanitizePath (inputPath : String) : String :=
  ⟨(((inputPath.data.dropWhile (fun c => c == '/')).reverse.dropWhile
      (fun c => c == '/')).reverse)⟩

/-- `RedirectGenerator.createMetaTags`: the meta-refresh tag, plus the
optional robots and canonical tags, joined by newline + indent. -/
def createMetaTags (options : RedirectOptions) (destination : String) (delay : Nat) : String :=
  let tags := ["<meta http-equiv=\"refresh\" content=\"" ++ toString delay
                ++ "; url=" ++ destination ++ "\">"]
  let tags := if options.addNoIndexMeta
    then tags ++ ["<meta name=\"robots\" content=\"noindex, nofollow\">"] else tags
  let tags := if options.addCanonical
    then tags ++ ["<link rel=\"canonical\" href=\"" ++ destination ++ "\">"] else tags
  String.intercalate "\n    " tags

/-- `RedirectGenerator.generateRedirectPage` for an already-resolved
template (`Template.resolveTemplate` memoizes one template per build;
its result is the `template` argument here). -/
def generateRedirectPage (options : RedirectOptions) (template source destination : String) :
    String :=
  processTemplate template source destination
    (createMetaTags options destination options.redirectDelay) options.redirectDelay

/-- `RedirectGenerator.generateAllRedirectFiles`: the list of
`(filePath, html)` writes it performs, one per rule, at
`path.join(outDir, sanitizePath(from), 'index.html')`; an empty rule set
returns before writing anything. -/
def generateAllRedirectFiles (rules : List (String × String)) (options : RedirectOptions)
    (template outDir : String) : List (String × String) :=
  if rules.length == 0 then []
  else rules.map (fun rule =>
    (joinPath (joinPath outDir (sanitizePath rule.1)) "index.html",
     generateRedirectPage options template rule.1 rule.2))

/-! ### Which check produces which error category -/

theorem validateSelfReferences_error {rules : List (String × String)} {e : VErr}
    (h : validateSelfReferences rules = .error e) :
    e.kind = .SelfReference
      ∧ e.items = (keysOf rules).filter (fun s => jsGet rules s == some s)
      ∧ e.items ≠ [] := by
  unfold validateSelfReferences at h
  dsimp only at h
  split at h
  · exact absurd h (by simp)
  · injection h with h'
    subst h'
    refine ⟨rfl, rfl, ?_⟩
    intro hnil
    exact ‹¬ _› (List.isEmpty_iff.mpr hnil)

theorem validateSelfReferences_ok {rules : List (String × String)}
    (h : (keysOf rules).filter (fun s => jsGet rules s == some s) = []) :
    validateSelfReferences rules = .ok () := by
  unfold validateSelfReferences
  simp [h]

theorem validateCircularRedirects_error {rules : List (String × String)} {e : VErr}
    (h : validateCircularRedirects rules = .error e) :
    e.kind = .CircularRedirect ∧ ∃ s, e.items = [s] :=  by
  unfold validateCircularRedirects at h
  split at h
  · injection h with h'
    subst h'
    exact ⟨rfl, _, rfl⟩
  · exact absurd h (by simp)

theorem validatePaths_error {rules : List (String × String)} {e : VErr}
    (h : validatePaths rules = .error e) :
    e.kind = .InvalidSourcePath ∨ e.kind = .InvalidDestinationPath := by
  unfold validatePaths at h
  split at h
  · injection h with h'
    subst h'
    exact Or.inl rfl
  · split at h
    · injection h with h'
      subst h'
      exact Or.inr rfl
    · exact absurd h (by simp)

theorem validateFileConflicts_error {rules : List (String × String)}
    {options : RedirectOptions} {srcDir : Option String} {cwd : String}
    {fs : List String} {e : VErr}
    (h : validateFileConflicts rules options srcDir cwd fs = .error e) :
    e.kind = .FileConflict := by
  unfold validateFileConflicts at h
  split at h
  · exact absurd h (by simp)
  · dsimp only at h
    split at h
    · exact absurd h (by simp)
    · injection h with h'
      subst h'
      rfl

theorem validateFileConflicts_override {rules : List (String × String)}
    {options : RedirectOptions} (srcDir : Option String) (cwd : String)
    (fs : List String) (hov : options.overrideExisting = true) :
    validateFileConflicts rules options srcDir cwd fs = .ok () := by
  unfold validateFileConflicts
  simp [hov]

theorem validateDeadLinks_error {rules : List (String × String)}
    {options : RedirectOptions} {srcDir : Option String} {cwd : String}
    {fs : List String} {e : VErr}
    (h : validateDeadLinks rules options srcDir cwd fs = .error e) :
    e.kind = .DeadLink := by
  unfold validateDeadLinks at h
  split at h
  · exact absurd h (by simp)
  · dsimp only at h
    split at h
    · exact absurd h (by simp)
    · injection h with h'
      subst h'
      rfl

theorem validateDeadLinks_ignore {rules : List (String × String)}
    {options : RedirectOptions} (srcDir : Option String) (cwd : String)
    (fs : List String) (hig : options.ignoreDeadLinks = true) :
    validateDeadLinks rules options srcDir cwd fs = .ok () := by
  unfold validateDeadLinks
  simp [hig]

/-- Every error raised by `validate` originates in exactly one check,
identified by its category; the file-system categories require their
skip-flags to be off. -/
theorem validate_error_origin {rules : List (String × String)}
    {options : RedirectOptions} {cfgPresent : Bool} {srcDir : Option String}
    {cwd : String} {fs : List String} {e : VErr}
    (h : validate rules options cfgPresent srcDir cwd fs = .error e) :
    (e.kind = .FileConflict → options.overrideExisting = false)
      ∧ (e.kind = .DeadLink → options.ignoreDeadLinks = false) := by
  unfold validate at h
  cases h1 : validateSelfReferences rules with
  | error e1 =>
    rw [h1] at h
    injection h with h'
    subst h'
    have hk := (validateSelfReferences_error h1).1
    constructor <;> (intro hk2; rw [hk] at hk2; cases hk2)
  | ok u =>
    cases u
    rw [h1] at h
    cases h2 : validateCircularRedirects rules with
    | error e2 =>
      rw [h2] at h
      injection h with h'
      subst h'
      have hk := (validateCircularRedirects_error h2).1
      constructor <;> (intro hk2; rw [hk] at hk2; cases hk2)
    | ok u =>
      cases u
      rw [h2] at h
      cases h3 : validatePaths rules with
      | error e3 =>
        rw [h3] at h
        injection h with h'
        subst h'
        rcases validatePaths_error h3 with hk | hk <;>
          (constructor <;> (intro hk2; rw [hk] at hk2; cases hk2))
      | ok u =>
        cases u
        rw [h3] at h
        cases cfgPresent with
        | false => simp at h
        | true =>
          simp only [if_true] at h
          cases h4 : validateFileConflicts rules options srcDir cwd fs with
          | error e4 =>
            rw [h4] at h
            injection h with h'
            subst h'
            have hk := validateFileConflicts_error h4
            constructor
            · intro _
              by_contra hov
              have hov' : options.overrideExisting = true := by
                revert hov
                cases options.overrideExisting <;> simp
              rw [validateFileConflicts_override srcDir cwd fs hov'] at h4
              cases h4
            · intro hk2
              rw [hk] at hk2
              cases hk2
          | ok u =>
            cases u
            rw [h4] at h
            have hk := validateDeadLinks_error h
            constructor
            · intro hk2
              rw [hk] at hk2
              cases hk2
            · intro _
              by_contra hig
              have hig' : options.ignoreDeadLinks = true := by
                revert hig
                cases options.ignoreDeadLinks <;> simp
              rw [validateDeadLinks_ignore srcDir cwd fs hig'] at h
              cases h

/-! ### Association-list access -/

theorem jsGet_mem {rules : List (String × String)} {a b : String}
    (h : jsGet rules a = some b) : (a, b) ∈ rules := by
  induction rules with
  | nil => cases h
  | cons p rest ih =>
    obtain ⟨k, v⟩ := p
    by_cases hab : a = k
    · subst hab
      have hv : jsGet ((a, v) :: rest) a = some v := by simp [jsGet, List.lookup]
      rw [hv] at h
      injection h with h'
      subst h'
      exact List.mem_cons_self _ _
    · have hv : jsGet ((k, v) :: rest) a = jsGet rest a := by
        simp [jsGet, List.lookup, beq_eq_false_iff_ne.mpr hab]
      rw [hv] at h
      exact List.mem_cons_of_mem _ (ih h)

theorem mem_jsGet {rules : List (String × String)} {a b : String}
    (hnd : (keysOf rules).Nodup) (h : (a, b) ∈ rules) : jsGet rules a = some b := by
  induction rules with
  | nil => cases h
  | cons p rest ih =>
    obtain ⟨k, v⟩ := p
    have hnd' := hnd
    rw [keysOf, List.map_cons, List.nodup_cons] at hnd'
    rcases List.mem_cons.mp h with heq | hmem
    · injection heq with h1 h2
      subst h1; subst h2
      simp [jsGet, List.lookup]
    · by_cases hab : a = k
      · subst hab
        exact absurd (List.mem_map_of_mem Prod.fst hmem) hnd'.1
      · have hv : jsGet ((k, v) :: rest) a = jsGet rest a := by
          simp [jsGet, List.lookup, beq_eq_false_iff_ne.mpr hab]
        rw [hv]
        exact ih hnd'.2 hmem

theorem find_exists {α : Type} {p : α → Bool} {l : List α} {s : α}
    (hs : s ∈ l) (hp : p s = true) : ∃ t, l.find? p = some t := by
  induction l with
  | nil => cases hs
  | cons a rest ih =>
    cases hpa : p a with
    | true => exact ⟨a, by simp [List.find?, hpa]⟩
    | false =>
      rcases List.mem_cons.mp hs with heq | hmem
      · subst heq
        rw [hp] at hpa
        cases hpa
      · obtain ⟨t, ht⟩ := ih hmem
        exact ⟨t, by simp [List.find?, hpa, ht]⟩

/-! ### The depth-first cycle detection on a 2-cycle -/

theorem detectCircular_zero (rules : List (String × String))
    (visited visiting : List String) (s : String) :
    detectCircular rules 0 visited visiting s = (true, visited) := rfl

theorem detectCircular_succ (rules : List (String × String)) (fuel : Nat)
    (visited visiting : List String) (s : String) :
    detectCircular rules (fuel + 1) visited visiting s =
      if s ∈ visiting then (true, visited)
      else if s ∈ visited then (false, visited)
      else
        match jsGet rules s with
        | some dest =>
          if truthy dest && truthyGet rules dest then
            match detectCircular rules fuel visited (s :: visiting) dest with
            | (true, v) => (true, v)
            | (false, v) => (false, s :: v)
          else (false, s :: visited)
        | none => (false, s :: visited) := rfl

/-- On a mutual 2-cycle `x ↔ y` whose nodes are not yet black, the
traversal starting at `x` always reports a cycle (for every fuel and
every gray set). -/
theorem detectCircular_cycle_true (rules : List (String × String)) :
    ∀ (fuel : Nat) (visited visiting : List String) (x y : String),
      jsGet rules x = some y → jsGet rules y = some x →
      truthy x = true → truthy y = true →
      x ∉ visited → y ∉ visited →
      (detectCircular rules fuel visited visiting x).1 = true := by
  intro fuel
  induction fuel with
  | zero => intros; rfl
  | succ f ih =>
    intro visited visiting x y hxy hyx hx hy hxv hyv
    rw [detectCircular_succ]
    by_cases hxvis : x ∈ visiting
    · simp [hxvis]
    · rw [if_neg hxvis, if_neg hxv, hxy]
      dsimp only
      have htr : (truthy y && truthyGet rules y) = true := by
        simp [hy, truthyGet, hyx, hx]
      rw [if_pos htr]
      have hrec := ih visited (x :: visiting) y x hyx hxy hy hx hyv hxv
      rcases hp : detectCircular rules f visited (x :: visiting) y with ⟨r, v⟩
      rw [hp] at hrec
      dsimp at hrec
      subst hrec
      rfl

/-- The traversal never blackens either node of a live 2-cycle: if `x`
and `y` are not black before a call, they are not black after it. -/
theorem detectCircular_preserves (rules : List (String × String))
    (x y : String) (hxy : jsGet rules x = some y) (hyx : jsGet rules y = some x)
    (hx : truthy x = true) (hy : truthy y = true) :
    ∀ (fuel : Nat) (visited visiting : List String) (s : String),
      x ∉ visited → y ∉ visited →
      x ∉ (detectCircular rules fuel visited visiting s).2
        ∧ y ∉ (detectCircular rules fuel visited visiting s).2 := by
  intro fuel
  induction fuel with
  | zero => intro visited visiting s hxv hyv; exact ⟨hxv, hyv⟩
  | succ f ih =>
    intro visited visiting s hxv hyv
    rw [detectCircular_succ]
    by_cases hsvis : s ∈ visiting
    · rw [if_pos hsvis]; exact ⟨hxv, hyv⟩
    · rw [if_neg hsvis]
      by_cases hsb : s ∈ visited
      · rw [if_pos hsb]; exact ⟨hxv, hyv⟩
      · rw [if_neg hsb]
        cases hg : jsGet rules s with
        | none =>
          dsimp only
          have hsx : s ≠ x := by intro h; rw [h, hxy] at hg; cases hg
          have hsy : s ≠ y := by intro h; rw [h, hyx] at hg; cases hg
          constructor
          · intro hmem
            rcases List.mem_cons.mp hmem with h | h
            · exact hsx h.symm
            · exact hxv h
          · intro hmem
            rcases List.mem_cons.mp hmem with h | h
            · exact hsy h.symm
            · exact hyv h
        | some dest =>
          dsimp only
          by_cases htr : (truthy dest && truthyGet rules dest) = true
          · rw [if_pos htr]
            have hin := ih visited (s :: visiting) dest hxv hyv
            rcases hp : detectCircular rules f visited (s :: visiting) dest with ⟨r, v⟩
            rw [hp] at hin
            cases r with
            | true => exact hin
            | false =>
              have hsx : s ≠ x := by
                intro h
                have hg' : some y = some dest := by rw [← hxy, ← h]; exact hg
                injection hg' with hdest
                have htrue := detectCircular_cycle_true rules f visited (s :: visiting)
                  y x hyx hxy hy hx hyv hxv
                rw [hdest, hp] at htrue
                cases htrue
              have hsy : s ≠ y := by
                intro h
                have hg' : some x = some dest := by rw [← hyx, ← h]; exact hg
                injection hg' with hdest
                have htrue := detectCircular_cycle_true rules f visited (s :: visiting)
                  x y hxy hyx hx hy hxv hyv
                rw [hdest, hp] at htrue
                cases htrue
              constructor
              · intro hmem
                rcases List.mem_cons.mp hmem with h | h
                · exact hsx h.symm
                · exact hin.1 h
              · intro hmem
                rcases List.mem_cons.mp hmem with h | h
                · exact hsy h.symm
                · exact hin.2 h
          · rw [if_neg htr]
            have hsx : s ≠ x := by
              intro h
              have hg' : some y = some dest := by rw [← hxy, ← h]; exact hg
              injection hg' with hdest
              apply htr
              rw [← hdest]
              simp [hy, truthyGet, hyx, hx]
            have hsy : s ≠ y := by
              intro h
              have hg' : some x = some dest := by rw [← hyx, ← h]; exact hg
              injection hg' with hdest
              apply htr
              rw [← hdest]
              simp [hx, truthyGet, hxy, hy]
            constructor
            · intro hmem
              rcases List.mem_cons.mp hmem with h | h
              · exact hsx h.symm
              · exact hxv h
            · intro hmem
              rcases List.mem_cons.mp hmem with h | h
              · exact hsy h.symm
              · exact hyv h

/-- Scanning any key list that contains a node of a live 2-cycle fires
at some scanned key. -/
theorem circularScan_fires (rules : List (String × String)) (x y : String)
    (hxy : jsGet rules x = some y) (hyx : jsGet rules y = some x)
    (hx : truthy x = true) (hy : truthy y = true) :
    ∀ (ks visited : List String), x ∈ ks → x ∉ visited → y ∉ visited →
      ∃ s, circularScan rules ks visited = some s ∧ s ∈ ks := by
  intro ks
  induction ks with
  | nil => intro visited hmem; cases hmem
  | cons k rest ih =>
    intro visited hmem hxv hyv
    unfold circularScan
    rcases hp : detectCircular rules (rules.length + 1) visited [] k with ⟨r, v⟩
    cases r with
    | true => exact ⟨k, rfl, List.mem_cons_self _ _⟩
    | false =>
      have hkx : k ≠ x := by
        intro h
        have htrue := detectCircular_cycle_true rules (rules.length + 1) visited [] x y
          hxy hyx hx hy hxv hyv
        rw [← h, hp] at htrue
        cases htrue
      have hxrest : x ∈ rest := by
        rcases List.mem_cons.mp hmem with h | h
        · exact absurd h.symm hkx
        · exact h
      have hpres := detectCircular_preserves rules x y hxy hyx hx hy
        (rules.length + 1) visited [] k hxv hyv
      rw [hp] at hpres
      obtain ⟨s, hs, hsmem⟩ := ih v hxrest hpres.1 hpres.2
      exact ⟨s, hs, List.mem_cons_of_mem _ hsmem⟩

/-! ### Routing an error back to its check -/

theorem validate_of_self_error {rules : List (String × String)}
    {options : RedirectOptions} {cfgPresent : Bool} {srcDir : Option String}
    {cwd : String} {fs : List String} {e : VErr}
    (h : validateSelfReferences rules = .error e) :
    validate rules options cfgPresent srcDir cwd fs = .error e := by
  unfold validate
  rw [h]

theorem validate_error_self {rules : List (String × String)}
    {options : RedirectOptions} {cfgPresent : Bool} {srcDir : Option String}
    {cwd : String} {fs : List String} {e : VErr}
    (h : validate rules options cfgPresent srcDir cwd fs = .error e)
    (hk : e.kind = .SelfReference) :
    validateSelfReferences rules = .error e := by
  unfold validate at h
  cases h1 : validateSelfReferences rules with
  | error e1 =>
    rw [h1] at h
    injection h with h'
    subst h'
    rfl
  | ok u =>
    cases u
    rw [h1] at h
    exfalso
    cases h2 : validateCircularRedirects rules with
    | error e2 =>
      rw [h2] at h
      injection h with h'
      subst h'
      have := (validateCircularRedirects_error h2).1
      rw [hk] at this
      cases this
    | ok u =>
      cases u
      rw [h2] at h
      cases h3 : validatePaths rules with
      | error e3 =>
        rw [h3] at h
        injection h with h'
        subst h'
        rcases validatePaths_error h3 with hp | hp <;> (rw [hk] at hp; cases hp)
      | ok u =>
        cases u
        rw [h3] at h
        cases cfgPresent with
        | false => simp at h
        | true =>
          simp only [if_true] at h
          cases h4 : validateFileConflicts rules options srcDir cwd fs with
          | error e4 =>
            rw [h4] at h
            injection h with h'
            subst h'
            have := validateFileConflicts_error h4
            rw [hk] at this
            cases this
          | ok u =>
            cases u
            rw [h4] at h
            have := validateDeadLinks_error h
            rw [hk] at this
            cases this

/-! ### Global literal replacement: the scan and its laws -/

theorem stringExt {s t : String} (h : s.data = t.data) : s = t := by
  cases s
  cases t
  exact congrArg String.mk h

theorem dataAppend (s t : String) : (s ++ t).data = s.data ++ t.data := rfl

theorem replaceAllGo_nil (pat repl : List Char) (f : Nat) (pre : List Char) :
    replaceAllGo pat repl f pre [] = [] := by
  cases f <;> rfl

theorem replaceAllGo_succ_cons (pat repl : List Char) (f : Nat) (pre : List Char)
    (c : Char) (rest : List Char) :
    replaceAllGo pat repl (f + 1) pre (c :: rest)
      = if pat.isPrefixOf (c :: rest)
          then getSubstitution pat pre (List.drop (pat.length - 1) rest) repl
            ++ replaceAllGo pat repl f (pre ++ pat) (List.drop (pat.length - 1) rest)
          else c :: replaceAllGo pat repl f (pre ++ [c]) rest := rfl

theorem hasDollarEscape_cons₂ (c d : Char) (rest : List Char) :
    hasDollarEscape (c :: d :: rest)
      = if c = '$' then
          if d = '$' ∨ d = '&' ∨ d = '\x60' ∨ d = '\x27' then true
          else hasDollarEscape (d :: rest)
        else hasDollarEscape (d :: rest) := rfl

theorem getSubstitution_cons₂ (matched before after : List Char) (c d : Char)
    (rest : List Char) :
    getSubstitution matched before after (c :: d :: rest)
      = if c = '$' then
          if d = '$' then '$' :: getSubstitution matched before after rest
          else if d = '&' then matched ++ getSubstitution matched before after rest
          else if d = '\x60' then before ++ getSubstitution matched before after rest
          else if d = '\x27' then after ++ getSubstitution matched before after rest
          else c :: getSubstitution matched before after (d :: rest)
        else c :: getSubstitution matched before after (d :: rest) := rfl

/-- An escape-free replacement expands to itself, whatever the match
context. -/
theorem getSubstitution_eq_self (matched before after : List Char) :
    ∀ repl, hasDollarEscape repl = false →
      getSubstitution matched before after repl = repl := by
  intro repl
  induction repl with
  | nil => intro _; rfl
  | cons c tail ih =>
    intro h
    cases tail with
    | nil => rfl
    | cons d rest =>
      rw [getSubstitution_cons₂]
      rw [hasDollarEscape_cons₂] at h
      by_cases hc : c = '$'
      · rw [if_pos hc] at h
        rw [if_pos hc]
        have hd : ¬(d = '$' ∨ d = '&' ∨ d = '\x60' ∨ d = '\x27') := by
          intro hor
          rw [if_pos hor] at h
          cases h
        rw [if_neg hd] at h
        rw [if_neg (fun h1 => hd (Or.inl h1)),
          if_neg (fun h2 => hd (Or.inr (Or.inl h2))),
          if_neg (fun h3 => hd (Or.inr (Or.inr (Or.inl h3)))),
          if_neg (fun h4 => hd (Or.inr (Or.inr (Or.inr h4))))]
        exact congrArg _ (ih h)
      · rw [if_neg hc] at h
        rw [if_neg hc]
        exact congrArg _ (ih h)

/-- With an escape-free replacement, the scan's result does not depend
on the consumed-prefix context. -/
theorem replaceAllGo_pre_irrelevant (pat repl : List Char)
    (hrepl : hasDollarEscape repl = false) :
    ∀ (f : Nat) (s pre₁ pre₂ : List Char),
      replaceAllGo pat repl f pre₁ s = replaceAllGo pat repl f pre₂ s := by
  intro f
  induction f with
  | zero => intro s pre₁ pre₂; cases s <;> rfl
  | succ f ih =>
    intro s pre₁ pre₂
    cases s with
    | nil => rfl
    | cons c rest =>
      rw [replaceAllGo_succ_cons, replaceAllGo_succ_cons]
      by_cases hpre : pat.isPrefixOf (c :: rest) = true
      · rw [if_pos hpre, if_pos hpre,
          getSubstitution_eq_self _ _ _ repl hrepl,
          getSubstitution_eq_self _ _ _ repl hrepl]
        exact congrArg _ (ih _ _ _)
      · rw [if_neg hpre, if_neg hpre]
        exact congrArg _ (ih _ _ _)

/-- The pattern matches nowhere in `s`: no suffix of `s` starts with it. -/
def NoMatch (pat s : List Char) : Prop :=
  ∀ u, u <:+ s → pat.isPrefixOf u = false

theorem isPrefixOf_append_self (l r : List Char) : l.isPrefixOf (l ++ r) = true := by
  induction l with
  | nil => simp
  | cons x xs ih => simp [List.isPrefixOf_cons₂, ih]

theorem suffix_split {α : Type} {u a s : List α} (h : u <:+ a ++ s) :
    u <:+ s ∨ ∃ t, t <:+ a ∧ t ≠ [] ∧ u = t ++ s := by
  induction a with
  | nil => left; simpa using h
  | cons x xs ih =>
    rcases List.suffix_cons_iff.mp h with h1 | h1
    · exact Or.inr ⟨x :: xs, List.suffix_refl _, by simp, by simpa using h1⟩
    · rcases ih h1 with h2 | ⟨t, ht, hne, rfl⟩
      · exact Or.inl h2
      · exact Or.inr ⟨t, ht.trans (List.suffix_cons x xs), hne, rfl⟩

theorem noMatch_go (pat repl : List Char) :
    ∀ (s : List Char) (f : Nat) (pre : List Char),
      NoMatch pat s → replaceAllGo pat repl f pre s = s := by
  intro s
  induction s with
  | nil => intro f pre _; exact replaceAllGo_nil pat repl f pre
  | cons c rest ih =>
    intro f pre hnm
    cases f with
    | zero => rfl
    | succ f =>
      have hf := hnm (c :: rest) (List.suffix_refl _)
      rw [replaceAllGo_succ_cons, hf]
      simp only [Bool.false_eq_true, if_false]
      exact congrArg _
        (ih f (pre ++ [c]) (fun u hu => hnm u (hu.trans (List.suffix_cons c rest))))

theorem noMatch_of_head_free {c : Char} {pt s : List Char} (h : c ∉ s) :
    NoMatch (c :: pt) s := by
  intro u hu
  cases u with
  | nil => rfl
  | cons d t =>
    have hd : d ∈ s := hu.subset (List.mem_cons_self d t)
    have hcd : c ≠ d := fun hcd => h (hcd ▸ hd)
    simp [List.isPrefixOf, beq_eq_false_iff_ne.mpr hcd]

theorem noMatch_append_free {c : Char} {pt a s : List Char} (ha : c ∉ a)
    (hs : NoMatch (c :: pt) s) : NoMatch (c :: pt) (a ++ s) := by
  intro u hu
  rcases suffix_split hu with h1 | ⟨t, ht, hne, rfl⟩
  · exact hs u h1
  · cases t with
    | nil => cases hne rfl
    | cons d t' =>
      have hd : d ∈ a := ht.subset (List.mem_cons_self _ _)
      have hcd : c ≠ d := fun hcd => ha (hcd ▸ hd)
      simp [List.isPrefixOf, beq_eq_false_iff_ne.mpr hcd]

/-- Appending a different placeholder block (same opening char, distinct
second char, opener absent from its tail) cannot create a match. -/
theorem noMatch_append_block {c p₀ q₀ : Char} {pt' qt' s : List Char}
    (hpq : p₀ ≠ q₀) (hq : c ∉ q₀ :: qt')
    (hs : NoMatch (c :: p₀ :: pt') s) :
    NoMatch (c :: p₀ :: pt') ((c :: q₀ :: qt') ++ s) := by
  intro u hu
  rcases suffix_split hu with h1 | ⟨t, ht, hne, rfl⟩
  · exact hs u h1
  · rcases List.suffix_cons_iff.mp ht with heq | hsuf
    · rw [heq]
      simp [List.isPrefixOf, beq_eq_false_iff_ne.mpr hpq]
    · cases t with
      | nil => cases hne rfl
      | cons d t' =>
        have hd : d ∈ q₀ :: qt' := hsuf.subset (List.mem_cons_self _ _)
        have hcd : c ≠ d := fun hcd => hq (hcd ▸ hd)
        simp [List.isPrefixOf, beq_eq_false_iff_ne.mpr hcd]

/-- Any fuel at least the subject's length computes the same result:
the scan consumes at least one character per step. -/
theorem replaceAllGo_fuel (pat repl : List Char) :
    ∀ (f g : Nat) (pre s : List Char), s.length ≤ f → s.length ≤ g →
      replaceAllGo pat repl f pre s = replaceAllGo pat repl g pre s := by
  intro f
  induction f with
  | zero =>
    intro g pre s hf _
    have : s = [] := List.length_eq_zero.mp (Nat.le_zero.mp hf)
    subst this
    rw [replaceAllGo_nil, replaceAllGo_nil]
  | succ f ih =>
    intro g pre s hf hg
    cases s with
    | nil => rw [replaceAllGo_nil, replaceAllGo_nil]
    | cons c rest =>
      cases g with
      | zero => exact absurd hg (by simp)
      | succ g =>
        rw [replaceAllGo_succ_cons, replaceAllGo_succ_cons]
        by_cases hpre : pat.isPrefixOf (c :: rest) = true
        · rw [if_pos hpre, if_pos hpre]
          have hd : (List.drop (pat.length - 1) rest).length ≤ rest.length := by
            rw [List.length_drop]
            omega
          have hrf : rest.length ≤ f := by simp at hf; omega
          have hrg : rest.length ≤ g := by simp at hg; omega
          exact congrArg _ (ih g _ _ (hd.trans hrf) (hd.trans hrg))
        · rw [if_neg hpre, if_neg hpre]
          have hrf : rest.length ≤ f := by simp at hf; omega
          have hrg : rest.length ≤ g := by simp at hg; omega
          exact congrArg _ (ih g _ rest hrf hrg)

/-- The scan substitutes at the first pattern occurrence: with an
opener-free prefix `a` and an escape-free replacement, scanning
`a ++ pat ++ rest` copies `a`, emits the replacement, and continues on
`rest` (in a fresh context, which an escape-free replacement cannot
observe). -/
theorem replaceAllGo_match {c : Char} {pt : List Char} (repl : List Char)
    (hrepl : hasDollarEscape repl = false) :
    ∀ (a rest : List Char) (f : Nat) (pre : List Char), c ∉ a →
      (a ++ ((c :: pt) ++ rest)).length ≤ f →
      replaceAllGo (c :: pt) repl f pre (a ++ ((c :: pt) ++ rest))
        = a ++ repl ++ replaceAllGo (c :: pt) repl rest.length [] rest := by
  intro a
  induction a with
  | nil =>
    intro rest f pre hca hf
    simp only [List.nil_append]
    cases f with
    | zero => exact absurd hf (by simp)
    | succ f =>
      rw [show ((c :: pt) ++ rest) = c :: (pt ++ rest) from rfl, replaceAllGo_succ_cons]
      rw [show (c :: (pt ++ rest)) = ((c :: pt) ++ rest) from rfl,
        if_pos (isPrefixOf_append_self (c :: pt) rest)]
      rw [show (c :: pt).length - 1 = pt.length from by simp, List.drop_left]
      rw [getSubstitution_eq_self _ _ _ repl hrepl]
      refine congrArg _ ?_
      rw [replaceAllGo_pre_irrelevant (c :: pt) repl hrepl f rest (pre ++ (c :: pt)) []]
      apply replaceAllGo_fuel
      · simp at hf; omega
      · exact Nat.le_refl _
  | cons x a' ih =>
    intro rest f pre hca hf
    have hcx : c ≠ x := fun h => hca (h ▸ List.mem_cons_self x a')
    cases f with
    | zero => exact absurd hf (by simp)
    | succ f =>
      rw [show (x :: a') ++ ((c :: pt) ++ rest) = x :: (a' ++ ((c :: pt) ++ rest)) from rfl,
        replaceAllGo_succ_cons]
      have hpre : (c :: pt).isPrefixOf (x :: (a' ++ ((c :: pt) ++ rest))) = false := by
        simp [List.isPrefixOf, beq_eq_false_iff_ne.mpr hcx]
      rw [hpre]
      simp only [Bool.false_eq_true, if_false]
      rw [ih rest f (pre ++ [x]) (fun h => hca (List.mem_cons_of_mem _ h))
        (by simp at hf ⊢; omega)]
      rfl

/-! ### String-level replacement laws -/

theorem stringAppend_assoc (x y z : String) : x ++ y ++ z = x ++ (y ++ z) :=
  stringExt (by simp only [dataAppend, List.append_assoc])

/-- A pass whose pattern occurs nowhere is the identity. -/
theorem replaceAll_noMatch {pat repl s : String} (h : NoMatch pat.data s.data) :
    replaceAll pat repl s = s :=
  stringExt (noMatch_go pat.data repl.data s.data s.data.length [] h)

/-- A pass over `pre ++ pat ++ post` with an opener-free `pre`, an
escape-free replacement and a match-free `post` substitutes exactly the
one occurrence. -/
theorem replaceAll_single {c : Char} {pt : List Char} (pat repl pre post : String)
    (hpat : pat.data = c :: pt) (hrepl : hasDollarEscape repl.data = false)
    (hpre : c ∉ pre.data) (hpost : NoMatch pat.data post.data) :
    replaceAll pat repl (pre ++ (pat ++ post)) = pre ++ (repl ++ post) := by
  apply stringExt
  show replaceAllGo pat.data repl.data (pre ++ (pat ++ post)).data.length []
    (pre ++ (pat ++ post)).data = (pre ++ (repl ++ post)).data
  have hd : (pre ++ (pat ++ post)).data = pre.data ++ ((c :: pt) ++ post.data) := by
    rw [dataAppend, dataAppend, hpat]
  rw [hd, hpat]
  rw [replaceAllGo_match repl.data hrepl pre.data post.data _ [] hpre (Nat.le_refl _)]
  rw [noMatch_go _ _ _ _ _ (hpat ▸ hpost)]
  rw [dataAppend, dataAppend, List.append_assoc]

/-- A pass over `pre ++ pat ++ mid ++ pat ++ post` with an escape-free
replacement substitutes both occurrences with the same replacement. -/
theorem replaceAll_double {c : Char} {pt : List Char} (pat repl pre mid post : String)
    (hpat : pat.data = c :: pt) (hrepl : hasDollarEscape repl.data = false)
    (hpre : c ∉ pre.data) (hmid : c ∉ mid.data)
    (hpost : NoMatch pat.data post.data) :
    replaceAll pat repl (pre ++ (pat ++ (mid ++ (pat ++ post))))
      = pre ++ (repl ++ (mid ++ (repl ++ post))) := by
  apply stringExt
  show replaceAllGo pat.data repl.data (pre ++ (pat ++ (mid ++ (pat ++ post)))).data.length []
    (pre ++ (pat ++ (mid ++ (pat ++ post)))).data = (pre ++ (repl ++ (mid ++ (repl ++ post)))).data
  have hd : (pre ++ (pat ++ (mid ++ (pat ++ post)))).data
      = pre.data ++ ((c :: pt) ++ (mid.data ++ ((c :: pt) ++ post.data))) := by
    simp only [dataAppend, hpat]
  rw [hd, hpat]
  rw [replaceAllGo_match repl.data hrepl pre.data (mid.data ++ ((c :: pt) ++ post.data)) _
    [] hpre (Nat.le_refl _)]
  rw [replaceAllGo_match repl.data hrepl mid.data post.data _ [] hmid (Nat.le_refl _)]
  rw [noMatch_go _ _ _ _ _ (hpat ▸ hpost)]
  simp only [dataAppend, List.append_assoc]

theorem noMatch_string_free {c : Char} {pt : List Char} {x : String} (hx : c ∉ x.data) :
    NoMatch (c :: pt) x.data := noMatch_of_head_free hx

theorem noMatch_string_append {c : Char} {pt : List Char} {x y : String}
    (hx : c ∉ x.data) (hy : NoMatch (c :: pt) y.data) :
    NoMatch (c :: pt) (x ++ y).data := by
  rw [dataAppend]
  exact noMatch_append_free hx hy

theorem noMatch_string_block {c p₀ q₀ : Char} {pt' qt' : List Char} {q y : String}
    (hqdata : q.data = c :: q₀ :: qt') (hpq : p₀ ≠ q₀) (hq : c ∉ q₀ :: qt')
    (hy : NoMatch (c :: p₀ :: pt') y.data) :
    NoMatch (c :: p₀ :: pt') ((q ++ y)).data := by
  rw [dataAppend, hqdata]
  exact noMatch_append_block hpq hq hy

/-! ### `sanitizePath` strips only the edges of a path -/

theorem takeWhile_slash_replicate (l : List Char) :
    l.takeWhile (fun c => c == '/')
      = List.replicate (l.takeWhile (fun c => c == '/')).length '/' := by
  induction l with
  | nil => rfl
  | cons c rest ih =>
    cases hc : (c == '/') with
    | false => simp [List.takeWhile_cons, hc]
    | true =>
      have : c = '/' := by simpa [beq_iff_eq] using hc
      subst this
      rw [List.takeWhile_cons, hc]
      rw [if_pos rfl, List.length_cons, List.replicate_succ]
      exact congrArg _ ih

/-- `sanitizePath` removes a (possibly empty) run of leading slashes and
a run of trailing slashes and nothing else: the interior — internal
slashes included — survives verbatim. -/
theorem sanitizePath_strips_only_edges (p : String) :
    ∃ k m, p.data = List.replicate k '/' ++ (sanitizePath p).data ++ List.replicate m '/' := by
  have hdata : (sanitizePath p).data
      = ((p.data.dropWhile (fun c => c == '/')).reverse.dropWhile (fun c => c == '/')).reverse :=
    rfl
  set l1 := p.data.dropWhile (fun c => c == '/') with hl1
  have h1 : p.data = p.data.takeWhile (fun c => c == '/') ++ l1 :=
    (List.takeWhile_append_dropWhile _ _).symm
  have h2 : l1.reverse
      = l1.reverse.takeWhile (fun c => c == '/') ++ l1.reverse.dropWhile (fun c => c == '/') :=
    (List.takeWhile_append_dropWhile _ _).symm
  have h3 : l1 = (l1.reverse.dropWhile (fun c => c == '/')).reverse
      ++ (l1.reverse.takeWhile (fun c => c == '/')).reverse := by
    conv_lhs => rw [← l1.reverse_reverse, h2]
    rw [List.reverse_append]
  refine ⟨(p.data.takeWhile (fun c => c == '/')).length,
    (l1.reverse.takeWhile (fun c => c == '/')).length, ?_⟩
  rw [hdata]
  conv_lhs => rw [h1, h3, takeWhile_slash_replicate p.data,
    takeWhile_slash_replicate l1.reverse, List.reverse_replicate]
  rw [List.append_assoc]

/-! ### Sequential vs. parallel file-system checks -/

theorem conflictEntries_inner_eq (cwd : String) (fs : List String)
    (s : String) : ∀ cands : List String,
    (((cands.map (fun filePath => (s, filePath))).map
        (fun sf => (sf.1, sf.2, fsExists fs sf.2))).filter
          (fun r => r.2.2)).map (fun r => conflictEntry cwd r.1 r.2.1)
      = (cands.filter (fsExists fs)).map (conflictEntry cwd s) := by
  intro cands
  induction cands with
  | nil => rfl
  | cons c cs ih =>
    simp only [List.map_map] at ih
    cases hc : fsExists fs c with
    | true => simp [List.filter_cons, hc, ih]
    | false => simp [List.filter_cons, hc, ih]

theorem fileConflictEntriesSeq_eq (dir cwd : String) (fs : List String) :
    ∀ ks : List String,
    fileConflictEntriesSeq dir cwd fs ks
      = (((ks.flatMap (fun source =>
            (possibleSourceFiles dir source).map (fun filePath => (source, filePath)))).map
              (fun sf => (sf.1, sf.2, fsExists fs sf.2))).filter
                (fun r => r.2.2)).map (fun r => conflictEntry cwd r.1 r.2.1) := by
  intro ks
  induction ks with
  | nil => rfl
  | cons s rest ih =>
    rw [fileConflictEntriesSeq, List.flatMap_cons, List.map_append,
      List.filter_append, List.map_append, conflictEntries_inner_eq, ih]

theorem validateFileConflictsSeq_eq (rules : List (String × String))
    (options : RedirectOptions) (srcDir : Option String) (cwd : String)
    (fs : List String) :
    validateFileConflictsSeq rules options srcDir cwd fs
      = validateFileConflicts rules options srcDir cwd fs := by
  unfold validateFileConflictsSeq validateFileConflicts
  cases options.overrideExisting with
  | true => rfl
  | false =>
    dsimp only
    rw [fileConflictEntriesSeq_eq]

theorem deadLinksSeq_eq (dir : String) (fs : List String) :
    ∀ ds : List String,
    deadLinksSeq dir fs ds
      = (((ds.filter (fun dest => !(jsStartsWith dest "http"))).map
          (fun dest => (dest, (possibleDestFiles dir dest).any (fsExists fs)))).filter
            (fun r => !r.2)).map Prod.fst := by
  intro ds
  induction ds with
  | nil => rfl
  | cons d rest ih =>
    rw [deadLinksSeq]
    cases hhttp : jsStartsWith d "http" with
    | true => simp [hhttp, List.filter_cons, ih]
    | false =>
      cases hex : (possibleDestFiles dir d).any (fsExists fs) with
      | true => simp [hhttp, hex, List.filter_cons, ih]
      | false => simp [hhttp, hex, List.filter_cons, ih]

theorem validateDeadLinksSeq_eq (rules : List (String × String))
    (options : RedirectOptions) (srcDir : Option String) (cwd : String)
    (fs : List String) :
    validateDeadLinksSeq rules options srcDir cwd fs
      = validateDeadLinks rules options srcDir cwd fs := by
  unfold validateDeadLinksSeq validateDeadLinks
  cases options.ignoreDeadLinks with
  | true => rfl
  | false =>
    dsimp only
    rw [deadLinksSeq_eq]

/-! ### Claims -/

/-- C1: the claim says destinations with query strings or hash fragments
resolve existence identically to the suffix-stripped destination
(strip-then-check), and the repository's own tests assert it
(`should accept redirects with hash fragments`, validator tests); but
`validateDeadLinks` probes `dest.slice(1) + '.md'` etc. without
stripping `?...`/`#...`, so with only `page.md` on disk the destination
`/page#sec` raises `DeadLink` while the stripped `/page` validates.
This theorem exhibits the divergence on that concrete input. -/
theorem c1_dead_link_suffix_not_stripped :
    validate [("/old", "/page#sec")] defaultOptions true (some "/docs") "/" ["/docs/page.md"]
      = .error ⟨.DeadLink, ["/page#sec"]⟩
    ∧ validate [("/old", "/page")] defaultOptions true (some "/docs") "/" ["/docs/page.md"]
      = .ok () := by
  constructor <;> rfl

/-- C5: with `overrideExisting = true` the file-conflict check returns
immediately, so `validate` never fails with a `FileConflict` error,
whatever the redirect table and the on-disk state. -/
theorem c5_override_never_file_conflict
    (rules : List (String × String)) (options : RedirectOptions)
    (cfgPresent : Bool) (srcDir : Option String) (cwd : String) (fs : List String)
    (e : VErr) (hov : options.overrideExisting = true)
    (h : validate rules options cfgPresent srcDir cwd fs = .error e) :
    e.kind ≠ .FileConflict := by
  intro hk
  have := (validate_error_origin h).1 hk
  rw [hov] at this
  cases this

/-- C6: with `ignoreDeadLinks = true` the dead-link check returns
immediately, so `validate` never fails with a `DeadLink` error, whatever
the redirect table and the on-disk state. -/
theorem c6_ignore_never_dead_link
    (rules : List (String × String)) (options : RedirectOptions)
    (cfgPresent : Bool) (srcDir : Option String) (cwd : String) (fs : List String)
    (e : VErr) (hig : options.ignoreDeadLinks = true)
    (h : validate rules options cfgPresent srcDir cwd fs = .error e) :
    e.kind ≠ .DeadLink := by
  intro hk
  have := (validate_error_origin h).2 hk
  rw [hig] at this
  cases this

/-- C2: `validate` fails with a `SelfReference` error iff some source
maps to itself by exact string comparison, and the single raised error
lists every self-referencing source (in table order) in a comma-joined
message. -/
theorem c2_self_reference_iff
    (rules : List (String × String)) (options : RedirectOptions)
    (cfgPresent : Bool) (srcDir : Option String) (cwd : String) (fs : List String)
    (hnd : (keysOf rules).Nodup) :
    ((∃ e, validate rules options cfgPresent srcDir cwd fs = .error e
        ∧ e.kind = .SelfReference) ↔ ∃ s, (s, s) ∈ rules)
    ∧ (∀ e, validate rules options cfgPresent srcDir cwd fs = .error e →
        e.kind = .SelfReference →
          e.items = (keysOf rules).filter (fun s => jsGet rules s == some s)
          ∧ e.items ≠ []
          ∧ errMessage e = "Self-referencing redirects detected: "
              ++ String.intercalate ", " e.items) := by
  constructor
  · constructor
    · rintro ⟨e, h, hk⟩
      have hself := validate_error_self h hk
      obtain ⟨-, hitems, hne⟩ := validateSelfReferences_error hself
      rw [hitems] at hne
      obtain ⟨s, hs⟩ := List.exists_mem_of_ne_nil _ hne
      obtain ⟨-, hsf⟩ := List.mem_filter.mp hs
      exact ⟨s, jsGet_mem (by simpa [beq_iff_eq] using hsf)⟩
    · rintro ⟨s, hs⟩
      have hget : jsGet rules s = some s := mem_jsGet hnd hs
      have hkey : s ∈ keysOf rules := List.mem_map_of_mem Prod.fst hs
      have hmem : s ∈ (keysOf rules).filter (fun t => jsGet rules t == some t) :=
        List.mem_filter.mpr ⟨hkey, by simp [hget]⟩
      have hne : ((keysOf rules).filter (fun t => jsGet rules t == some t)).isEmpty = false := by
        rcases hcase : (keysOf rules).filter (fun t => jsGet rules t == some t) with - | ⟨a, l⟩
        · rw [hcase] at hmem
          cases hmem
        · rfl
      refine ⟨⟨.SelfReference,
        (keysOf rules).filter (fun t => jsGet rules t == some t)⟩, ?_, rfl⟩
      apply validate_of_self_error
      unfold validateSelfReferences
      simp only [hne]
      rfl
  · intro e h hk
    obtain ⟨-, hitems, hne⟩ := validateSelfReferences_error (validate_error_self h hk)
    refine ⟨hitems, hne, ?_⟩
    obtain ⟨k, items⟩ := e
    cases hk
    rfl

/-- C3 (amended): a table containing a mutual 2-cycle `a ↔ b` of
nonempty paths (both keys) and no self-referencing rule makes `validate`
fail with a `CircularRedirect` error naming a single source key of the
table — the first key, in table order, at which the traversal detects a
cycle, which need not be `a` or `b`. -/
theorem c3_two_cycle_circular_redirect
    (rules : List (String × String)) (options : RedirectOptions)
    (cfgPresent : Bool) (srcDir : Option String) (cwd : String) (fs : List String)
    (a b : String) (hnd : (keysOf rules).Nodup)
    (hmem1 : (a, b) ∈ rules) (hmem2 : (b, a) ∈ rules)
    (ha : a ≠ "") (hb : b ≠ "")
    (hnoself : ∀ p ∈ rules, p.1 ≠ p.2) :
    ∃ s, s ∈ keysOf rules
      ∧ validate rules options cfgPresent srcDir cwd fs
          = .error ⟨.CircularRedirect, [s]⟩ := by
  have hab : jsGet rules a = some b := mem_jsGet hnd hmem1
  have hba : jsGet rules b = some a := mem_jsGet hnd hmem2
  have hta : truthy a = true := by simp [truthy, ha]
  have htb : truthy b = true := by simp [truthy, hb]
  have hfilter : (keysOf rules).filter (fun s => jsGet rules s == some s) = [] := by
    rw [List.filter_eq_nil_iff]
    intro s hsk
    obtain ⟨p, hp, hps⟩ := List.mem_map.mp hsk
    have hget : jsGet rules p.1 = some p.2 := mem_jsGet hnd hp
    rw [← hps]
    simp only [hget, beq_iff_eq, Option.some.injEq]
    intro hc
    exact hnoself p hp hc.symm
  have hself : validateSelfReferences rules = .ok () := validateSelfReferences_ok hfilter
  have hakey : a ∈ keysOf rules := List.mem_map_of_mem Prod.fst hmem1
  obtain ⟨s, hscan, hsmem⟩ := circularScan_fires rules a b hab hba hta htb
    (keysOf rules) [] hakey (by simp) (by simp)
  refine ⟨s, hsmem, ?_⟩
  unfold validate
  rw [hself]
  unfold validateCircularRedirects
  rw [hscan]

/-- C3 counterexample to the claim as stated: the table
`{"/c": "/a", "/a": "/b", "/b": "/a"}` contains the 2-cycle
`/a ↔ /b` (both keys, neither self-referencing), yet the
`CircularRedirect` error names `/c` — the key from which the traversal
first reached the cycle — which is neither `/a` nor `/b`. -/
theorem c3_counterexample :
    validate [("/c", "/a"), ("/a", "/b"), ("/b", "/a")] defaultOptions true (some "/s") "." []
      = .error ⟨.CircularRedirect, ["/c"]⟩
    ∧ ("/a", "/b") ∈ [("/c", "/a"), ("/a", "/b"), ("/b", "/a")]
    ∧ ("/b", "/a") ∈ [("/c", "/a"), ("/a", "/b"), ("/b", "/a")]
    ∧ ("/c" : String) ≠ "/a" ∧ ("/c" : String) ≠ "/b" := by
  refine ⟨by decide, by decide, by decide, by decide, by decide⟩

/-- Witness for C3 at a concrete input: a bare 2-cycle table, where the
amended claim produces the `CircularRedirect` failure. -/
theorem c3_witness :
    (keysOf [("/a", "/b"), ("/b", "/a")]).Nodup
    ∧ ("/a", "/b") ∈ [("/a", "/b"), ("/b", "/a")]
    ∧ ("/b", "/a") ∈ [("/a", "/b"), ("/b", "/a")]
    ∧ ("/a" : String) ≠ "" ∧ ("/b" : String) ≠ ""
    ∧ (∀ p ∈ [("/a", "/b"), ("/b", "/a")], p.1 ≠ p.2)
    ∧ ∃ s, s ∈ keysOf [("/a", "/b"), ("/b", "/a")]
        ∧ validate [("/a", "/b"), ("/b", "/a")] defaultOptions false none "" []
            = .error ⟨.CircularRedirect, [s]⟩ := by
  refine ⟨by decide, by decide, by decide, by decide, by decide, by decide, ?_⟩
  exact c3_two_cycle_circular_redirect [("/a", "/b"), ("/b", "/a")] defaultOptions
    false none "" [] "/a" "/b" (by decide) (by decide) (by decide)
    (by decide) (by decide) (by decide)

/-- C4 (amended): a table with a source key not starting with `/`
always makes `validate` fail before any file-system check runs — the
raised error is the same for every on-disk state and config — with an
`InvalidSourcePath` error unless the earlier self-reference or
circular-redirect check fires first; when the `InvalidSourcePath` error
is raised it names exactly the first offending source in table order. -/
theorem c4_invalid_source_before_fs
    (rules : List (String × String)) (options : RedirectOptions) (s : String)
    (hs : s ∈ keysOf rules) (hns : jsStartsWith s "/" = false) :
    ∃ e : VErr,
      (∀ (cfgPresent : Bool) (srcDir : Option String) (cwd : String) (fs : List String),
        validate rules options cfgPresent srcDir cwd fs = .error e)
      ∧ (e.kind = .SelfReference ∨ e.kind = .CircularRedirect ∨ e.kind = .InvalidSourcePath)
      ∧ (e.kind = .InvalidSourcePath →
          ∃ s₀, e.items = [s₀]
            ∧ (keysOf rules).find? (fun k => !(jsStartsWith k "/")) = some s₀) := by
  cases h1 : validateSelfReferences rules with
  | error e1 =>
    refine ⟨e1, fun _ _ _ _ => validate_of_self_error h1,
      Or.inl (validateSelfReferences_error h1).1, ?_⟩
    intro hk
    rw [(validateSelfReferences_error h1).1] at hk
    cases hk
  | ok u =>
    cases u
    cases h2 : validateCircularRedirects rules with
    | error e2 =>
      refine ⟨e2, ?_, Or.inr (Or.inl (validateCircularRedirects_error h2).1), ?_⟩
      · intro cfgPresent srcDir cwd fs
        unfold validate
        rw [h1, h2]
      · intro hk
        rw [(validateCircularRedirects_error h2).1] at hk
        cases hk
    | ok u =>
      cases u
      obtain ⟨t, ht⟩ :
          ∃ t, (keysOf rules).find? (fun k => !(jsStartsWith k "/")) = some t :=
        find_exists hs (by simp [hns])
      refine ⟨⟨.InvalidSourcePath, [t]⟩, ?_, Or.inr (Or.inr rfl), fun _ => ⟨t, rfl, ht⟩⟩
      intro cfgPresent srcDir cwd fs
      unfold validate
      rw [h1, h2]
      unfold validatePaths
      rw [ht]

/-- C4 counterexample to the claim as stated: the table
`{"bad": "bad"}` has a source key not starting with `/`, yet `validate`
fails with `SelfReference` (the self-reference check runs first), not
with `InvalidSourcePath`. -/
theorem c4_counterexample :
    validate [("bad", "bad")] defaultOptions true none "" []
      = .error ⟨.SelfReference, ["bad"]⟩
    ∧ jsStartsWith "bad" "/" = false
    ∧ ErrKind.SelfReference ≠ ErrKind.InvalidSourcePath := by
  refine ⟨by decide, by decide, by decide⟩

/-- Witness for C4 at a concrete input: a clean table whose only flaw is
the malformed source `x`, where the raised error is `InvalidSourcePath`
naming `x`, independently of the file system. -/
theorem c4_witness :
    ("x" ∈ keysOf [("x", "/y")]) ∧ jsStartsWith "x" "/" = false
    ∧ ∃ e : VErr,
      (∀ (cfgPresent : Bool) (srcDir : Option String) (cwd : String) (fs : List String),
        validate [("x", "/y")] defaultOptions cfgPresent srcDir cwd fs = .error e)
      ∧ (e.kind = .SelfReference ∨ e.kind = .CircularRedirect ∨ e.kind = .InvalidSourcePath)
      ∧ (e.kind = .InvalidSourcePath →
          ∃ s₀, e.items = [s₀]
            ∧ (keysOf [("x", "/y")]).find? (fun k => !(jsStartsWith k "/")) = some s₀) := by
  refine ⟨by decide, by decide, ?_⟩
  exact c4_invalid_source_before_fs [("x", "/y")] defaultOptions "x" (by decide) (by decide)

/-- Witness for C2 at a concrete input: a table with a self-reference,
where the equivalence produces the `SelfReference` failure. -/
theorem c2_witness :
    (keysOf [("/a", "/a"), ("/x", "/y")]).Nodup
    ∧ (∃ e, validate [("/a", "/a"), ("/x", "/y")] defaultOptions false none "" []
        = .error e ∧ e.kind = .SelfReference) := by
  refine ⟨by decide, ?_⟩
  exact (c2_self_reference_iff [("/a", "/a"), ("/x", "/y")] defaultOptions false none "" []
    (by decide)).1.mpr ⟨"/a", by decide⟩

/-- C10: the sequential validator and the parallelized validator are
behaviorally equivalent — for every table, options and deterministic
on-disk state they return the same result: both succeed, or both raise
the same error category with the same offending entries in the same
order (file-conflict entries per source in candidate order, dead-link
entries in table value order). -/
theorem c10_sequential_parallel_equivalent
    (rules : List (String × String)) (options : RedirectOptions)
    (cfgPresent : Bool) (srcDir : Option String) (cwd : String) (fs : List String) :
    validateSeq rules options cfgPresent srcDir cwd fs
      = validate rules options cfgPresent srcDir cwd fs := by
  unfold validateSeq validate
  rw [validateFileConflictsSeq_eq, validateDeadLinksSeq_eq]

/-- C9: `validate` never mutates the redirect table or the options
record: in the state-passing translation of the method pipeline, the
validator state after the call — whether it returns or raises — is the
state before it, and the result agrees with the pure pipeline. -/
theorem c9_validate_never_mutates (st : ValidatorCtx) (cwd : String) (fs : List String) :
    (validateM st cwd fs).2 = st
    ∧ (validateM st cwd fs).1
        = validate st.rules st.options st.cfgPresent st.srcDir cwd fs := by
  unfold validateM validate
  cases h1 : validateSelfReferences st.rules with
  | error e => exact ⟨rfl, rfl⟩
  | ok u =>
    cases u
    cases h2 : validateCircularRedirects st.rules with
    | error e => exact ⟨rfl, rfl⟩
    | ok u =>
      cases u
      cases h3 : validatePaths st.rules with
      | error e => exact ⟨rfl, rfl⟩
      | ok u =>
        cases u
        cases hc : st.cfgPresent with
        | false => exact ⟨rfl, rfl⟩
        | true =>
          cases h4 : validateFileConflicts st.rules st.options st.srcDir cwd fs with
          | error e => exact ⟨rfl, rfl⟩
          | ok u => cases u; exact ⟨rfl, rfl⟩

/-- C7: `generateAllRedirectFiles` writes exactly one file per rule, at
`{outDir}/{sanitizePath(source)}/index.html` in table order; an empty
table produces zero files; and `sanitizePath` strips only leading and
trailing `/` runs, preserving internal slashes (for `/a/b` the sanitized
path is `a/b`). -/
theorem c7_generate_write_paths (rules : List (String × String))
    (options : RedirectOptions) (template outDir : String) :
    ((generateAllRedirectFiles rules options template outDir).map Prod.fst
        = rules.map (fun rule => joinPath (joinPath outDir (sanitizePath rule.1)) "index.html"))
    ∧ (generateAllRedirectFiles rules options template outDir).length = rules.length
    ∧ (rules = [] → generateAllRedirectFiles rules options template outDir = [])
    ∧ (∀ p : String, ∃ k m, p.data
        = List.replicate k '/' ++ (sanitizePath p).data ++ List.replicate m '/')
    ∧ sanitizePath "/a/b" = "a/b" := by
  refine ⟨?_, ?_, ?_, fun p => sanitizePath_strips_only_edges p, by decide⟩
  · by_cases h : rules = []
    · subst h; rfl
    · have hlen : (rules.length == 0) = false := by
        simpa using fun hc => h (List.length_eq_zero.mp hc)
      unfold generateAllRedirectFiles
      rw [hlen]
      simp
  · by_cases h : rules = []
    · subst h; rfl
    · have hlen : (rules.length == 0) = false := by
        simpa using fun hc => h (List.length_eq_zero.mp hc)
      unfold generateAllRedirectFiles
      rw [hlen]
      simp
  · intro h
    subst h
    rfl

/-- Witness for C7 at concrete inputs: a one-rule table writes exactly
`out/a/b/index.html`, and the empty table writes nothing. -/
theorem c7_witness :
    (([] : List (String × String)) = [])
    ∧ generateAllRedirectFiles [] defaultOptions "T" "out" = []
    ∧ (generateAllRedirectFiles [("/a/b", "/x")] defaultOptions "T" "out").map Prod.fst
        = ["out/a/b/index.html"] := by
  refine ⟨rfl, ?_, ?_⟩
  · exact (c7_generate_write_paths [] defaultOptions "T" "out").2.2.1 rfl
  · rw [(c7_generate_write_paths [("/a/b", "/x")] defaultOptions "T" "out").1]
    decide

/-- C8 counterexample to the claim as stated: `String.replace` with a
string replacement honours the ECMAScript `$`-escapes, so with the
destination value `$&` every match is replaced by the matched text
itself — rendering a template containing `{destination}` twice leaves
both placeholder occurrences in place instead of substituting the
destination value literally. -/
theorem c8_counterexample :
    processTemplate "A{destination}B{destination}C" "S" "$&" "M" 0
      = "A{destination}B{destination}C"
    ∧ ("A{destination}B{destination}C" : String) ≠ "A$&B$&C" := by
  refine ⟨by decide, by decide⟩

/-- C8 (amended): `processTemplate` performs literal substitution of
the four placeholders, replacing all occurrences of each, provided the
substituted values contain none of the `$`-escape pairs that the
JS string replacement expands (`$$`, `$&`, dollar-backquote, `$'`):
then a template containing `{destination}` twice gets both occurrences
replaced by the same destination value, and a template containing each
of the four placeholders gets each replaced by its value.  The
remaining side conditions keep the surrounding segments and the values
free of the placeholder opener `{`. -/
theorem c8_process_template (a b c source dest meta : String) (delay : Nat)
    (ha : '{' ∉ a.data) (hb : '{' ∉ b.data) (hc : '{' ∉ c.data)
    (hsrc : '{' ∉ source.data) (hdst : '{' ∉ dest.data)
    (hdelay : '{' ∉ (toString delay).data)
    (hsrcE : hasDollarEscape source.data = false)
    (hdstE : hasDollarEscape dest.data = false)
    (hdelayE : hasDollarEscape (toString delay).data = false)
    (hmetaE : hasDollarEscape meta.data = false) :
    processTemplate (a ++ "{destination}" ++ b ++ "{destination}" ++ c) source dest meta delay
        = a ++ dest ++ b ++ dest ++ c
    ∧ processTemplate (a ++ "{source}" ++ b ++ "{destination}" ++ c ++ "{redirectDelay}"
          ++ a ++ "{metaTags}" ++ b) source dest meta delay
        = a ++ source ++ b ++ dest ++ c ++ toString delay ++ a ++ meta ++ b := by
  have hPs : "{source}".data = '{' :: 's' :: "ource\x7d".data := rfl
  have hPd : "{destination}".data = '{' :: 'd' :: "estination\x7d".data := rfl
  have hPr : "{redirectDelay}".data = '{' :: 'r' :: "edirectDelay\x7d".data := rfl
  have hPm : "{metaTags}".data = '{' :: 'm' :: "etaTags\x7d".data := rfl
  constructor
  · have e1 : a ++ "{destination}" ++ b ++ "{destination}" ++ c
        = a ++ ("{destination}" ++ (b ++ ("{destination}" ++ c))) := by
      simp only [stringAppend_assoc]
    have e2 : a ++ dest ++ b ++ dest ++ c = a ++ (dest ++ (b ++ (dest ++ c))) := by
      simp only [stringAppend_assoc]
    rw [e1, e2]
    unfold processTemplate
    have p1 : replaceAll "{source}" source
        (a ++ ("{destination}" ++ (b ++ ("{destination}" ++ c))))
        = a ++ ("{destination}" ++ (b ++ ("{destination}" ++ c))) := by
      apply replaceAll_noMatch
      rw [hPs]
      exact noMatch_string_append ha (noMatch_string_block hPd (by decide) (by decide)
        (noMatch_string_append hb (noMatch_string_block hPd (by decide) (by decide)
          (noMatch_string_free hc))))
    have p2 : replaceAll "{destination}" dest
        (a ++ ("{destination}" ++ (b ++ ("{destination}" ++ c))))
        = a ++ (dest ++ (b ++ (dest ++ c))) := by
      apply replaceAll_double "{destination}" dest a b c hPd hdstE ha hb
      rw [hPd]
      exact noMatch_string_free hc
    have p3 : replaceAll "{redirectDelay}" (toString delay)
        (a ++ (dest ++ (b ++ (dest ++ c)))) = a ++ (dest ++ (b ++ (dest ++ c))) := by
      apply replaceAll_noMatch
      rw [hPr]
      exact noMatch_string_append ha (noMatch_string_append hdst (noMatch_string_append hb
        (noMatch_string_append hdst (noMatch_string_free hc))))
    have p4 : replaceAll "{metaTags}" meta
        (a ++ (dest ++ (b ++ (dest ++ c)))) = a ++ (dest ++ (b ++ (dest ++ c))) := by
      apply replaceAll_noMatch
      rw [hPm]
      exact noMatch_string_append ha (noMatch_string_append hdst (noMatch_string_append hb
        (noMatch_string_append hdst (noMatch_string_free hc))))
    rw [p1, p2, p3, p4]
  · have e1 : a ++ "{source}" ++ b ++ "{destination}" ++ c ++ "{redirectDelay}"
          ++ a ++ "{metaTags}" ++ b
        = a ++ ("{source}" ++ (b ++ ("{destination}" ++ (c ++ ("{redirectDelay}"
            ++ (a ++ ("{metaTags}" ++ b))))))) := by
      simp only [stringAppend_assoc]
    have e2 : a ++ source ++ b ++ dest ++ c ++ toString delay ++ a ++ meta ++ b
        = a ++ (source ++ (b ++ (dest ++ (c ++ (toString delay
            ++ (a ++ (meta ++ b))))))) := by
      simp only [stringAppend_assoc]
    rw [e1, e2]
    unfold processTemplate
    have p1 : replaceAll "{source}" source
        (a ++ ("{source}" ++ (b ++ ("{destination}" ++ (c ++ ("{redirectDelay}"
          ++ (a ++ ("{metaTags}" ++ b))))))))
        = a ++ (source ++ (b ++ ("{destination}" ++ (c ++ ("{redirectDelay}"
          ++ (a ++ ("{metaTags}" ++ b))))))) := by
      apply replaceAll_single "{source}" source a _ hPs hsrcE ha
      rw [hPs]
      exact noMatch_string_append hb (noMatch_string_block hPd (by decide) (by decide)
        (noMatch_string_append hc (noMatch_string_block hPr (by decide) (by decide)
          (noMatch_string_append ha (noMatch_string_block hPm (by decide) (by decide)
            (noMatch_string_free hb))))))
    have r2 : a ++ (source ++ (b ++ ("{destination}" ++ (c ++ ("{redirectDelay}"
          ++ (a ++ ("{metaTags}" ++ b)))))))
        = (a ++ (source ++ b)) ++ ("{destination}" ++ (c ++ ("{redirectDelay}"
            ++ (a ++ ("{metaTags}" ++ b))))) := by
      simp only [stringAppend_assoc]
    have hpre2 : '{' ∉ (a ++ (source ++ b)).data := by
      simp [dataAppend, ha, hsrc, hb]
    have p2 : replaceAll "{destination}" dest
        ((a ++ (source ++ b)) ++ ("{destination}" ++ (c ++ ("{redirectDelay}"
          ++ (a ++ ("{metaTags}" ++ b))))))
        = (a ++ (source ++ b)) ++ (dest ++ (c ++ ("{redirectDelay}"
            ++ (a ++ ("{metaTags}" ++ b))))) := by
      apply replaceAll_single "{destination}" dest _ _ hPd hdstE hpre2
      rw [hPd]
      exact noMatch_string_append hc (noMatch_string_block hPr (by decide) (by decide)
        (noMatch_string_append ha (noMatch_string_block hPm (by decide) (by decide)
          (noMatch_string_free hb))))
    have r3 : (a ++ (source ++ b)) ++ (dest ++ (c ++ ("{redirectDelay}"
          ++ (a ++ ("{metaTags}" ++ b)))))
        = (a ++ (source ++ (b ++ (dest ++ c)))) ++ ("{redirectDelay}"
            ++ (a ++ ("{metaTags}" ++ b))) := by
      simp only [stringAppend_assoc]
    have hpre3 : '{' ∉ (a ++ (source ++ (b ++ (dest ++ c)))).data := by
      simp [dataAppend, ha, hsrc, hb, hdst, hc]
    have p3 : replaceAll "{redirectDelay}" (toString delay)
        ((a ++ (source ++ (b ++ (dest ++ c)))) ++ ("{redirectDelay}"
          ++ (a ++ ("{metaTags}" ++ b))))
        = (a ++ (source ++ (b ++ (dest ++ c)))) ++ (toString delay
            ++ (a ++ ("{metaTags}" ++ b))) := by
      apply replaceAll_single "{redirectDelay}" (toString delay) _ _ hPr hdelayE hpre3
      rw [hPr]
      exact noMatch_string_append ha (noMatch_string_block hPm (by decide) (by decide)
        (noMatch_string_free hb))
    have r4 : (a ++ (source ++ (b ++ (dest ++ c)))) ++ (toString delay
          ++ (a ++ ("{metaTags}" ++ b)))
        = (a ++ (source ++ (b ++ (dest ++ (c ++ (toString delay ++ a))))))
            ++ ("{metaTags}" ++ b) := by
      simp only [stringAppend_assoc]
    have hpre4 : '{' ∉ (a ++ (source ++ (b ++ (dest ++ (c ++ (toString delay ++ a)))))).data := by
      simp [dataAppend, ha, hsrc, hb, hdst, hc, hdelay]
    have p4 : replaceAll "{metaTags}" meta
        ((a ++ (source ++ (b ++ (dest ++ (c ++ (toString delay ++ a))))))
          ++ ("{metaTags}" ++ b))
        = (a ++ (source ++ (b ++ (dest ++ (c ++ (toString delay ++ a))))))
            ++ (meta ++ b) := by
      apply replaceAll_single "{metaTags}" meta _ _ hPm hmetaE hpre4
      rw [hPm]
      exact noMatch_string_free hb
    rw [p1, r2, p2, r3, p3, r4, p4]
    simp only [stringAppend_assoc]

/-- Witness for C8 at concrete inputs, discharging the opener-freeness
side conditions and instantiating both template shapes. -/
theorem c8_witness :
    ('{' ∉ "A".data) ∧ ('{' ∉ "B".data) ∧ ('{' ∉ "C".data)
    ∧ ('{' ∉ "S".data) ∧ ('{' ∉ "D".data)
    ∧ ('{' ∉ (toString (3 : Nat)).data)
    ∧ hasDollarEscape "S".data = false ∧ hasDollarEscape "D".data = false
    ∧ hasDollarEscape (toString (3 : Nat)).data = false
    ∧ hasDollarEscape "M".data = false
    ∧ processTemplate ("A" ++ "{destination}" ++ "B" ++ "{destination}" ++ "C")
        "S" "D" "M" 3 = "A" ++ "D" ++ "B" ++ "D" ++ "C"
    ∧ processTemplate ("A" ++ "{source}" ++ "B" ++ "{destination}" ++ "C"
          ++ "{redirectDelay}" ++ "A" ++ "{metaTags}" ++ "B") "S" "D" "M" 3
        = "A" ++ "S" ++ "B" ++ "D" ++ "C" ++ toString (3 : Nat) ++ "A" ++ "M" ++ "B" := by
  have h := c8_process_template "A" "B" "C" "S" "D" "M" 3 (by decide) (by decide)
    (by decide) (by decide) (by decide) (by decide) (by decide) (by decide)
    (by decide) (by decide)
  exact ⟨by decide, by decide, by decide, by decide, by decide, by decide,
    by decide, by decide, by decide, by decide, h.1, h.2⟩

/-- Witness for C5 at a concrete input: with `overrideExisting = true`
and a self-referencing table, `validate` raises, and the raised kind is
not `FileConflict`. -/
theorem c5_witness :
    ({ defaultOptions with overrideExisting := true } : RedirectOptions).overrideExisting = true
    ∧ validate [("/a", "/a")] { defaultOptions with overrideExisting := true }
        true (some "/d") "/" ["/d/a.md"] = .error ⟨.SelfReference, ["/a"]⟩
    ∧ (⟨.SelfReference, ["/a"]⟩ : VErr).kind ≠ .FileConflict := by
  refine ⟨rfl, by decide, ?_⟩
  exact c5_override_never_file_conflict [("/a", "/a")]
    { defaultOptions with overrideExisting := true } true (some "/d") "/" ["/d/a.md"]
    ⟨.SelfReference, ["/a"]⟩ rfl (by decide)

/-- Witness for C6 at a concrete input: with `ignoreDeadLinks = true`
and a table whose destination has no file on disk, `validate` still
fails earlier checks or succeeds; here it raises `SelfReference`, whose
kind is not `DeadLink`. -/
theorem c6_witness :
    ({ defaultOptions with ignoreDeadLinks := true } : RedirectOptions).ignoreDeadLinks = true
    ∧ validate [("/a", "/a")] { defaultOptions with ignoreDeadLinks := true }
        true (some "/d") "/" [] = .error ⟨.SelfReference, ["/a"]⟩
    ∧ (⟨.SelfReference, ["/a"]⟩ : VErr).kind ≠ .DeadLink := by
  refine ⟨rfl, by decide, ?_⟩
  exact c6_ignore_never_dead_link [("/a", "/a")]
    { defaultOptions with ignoreDeadLinks := true } true (some "/d") "/" []
    ⟨.SelfReference, ["/a"]⟩ rfl (by decide)

end Routex
